import Mathlib

/-!
Verification development for the `finance-manager` repository
(`internal/analyzer/analyzer.go`, `internal/models/transaction.go`).

Modelling conventions, shared by all definitions below:

* Go `string` values that are scanned character by character (chunker, JSON
  scanners) are modelled as `List Char`; `string` fields of records are
  modelled as Lean `String`.  All inputs of interest are ASCII, where Go's
  byte-wise `len`/slicing and the `List Char` model agree.
* Go `float64` is modelled as `ℚ`.  Every concrete value appearing in the
  claims (e.g. `-50`, `200`, `0.95`) and every operation performed on them
  (addition, subtraction) is exact in binary floating point at these
  magnitudes, so the rational model is faithful for the verified statements.
* Go `int` is modelled as `Int` where negative values are possible (JSON
  `index` fields) and as `Nat` for sizes and counters.
* `time.Time` at day precision is modelled as `Nat` via the monotone
  encoding `year*10000 + month*100 + day`; `Before`/`After` become `<`/`>`.
* Fallible Go functions returning `(T, error)` are modelled with
  `Option`/`Except`; calls to the external Claude API are modelled by an
  explicit oracle argument describing the outcome of each call.
-/

namespace FinanceManager

/-! ## Data model (`internal/models/transaction.go`) -/

/-- TransactionType from `models/transaction.go`: `Debit | Credit`. -/
inductive TransactionType where
  | Debit
  | Credit
deriving DecidableEq, Repr

/-- Transaction from `models/transaction.go`.  Field order and contents mirror
the Go struct; `Date` is a day-precision `Nat` (see module docstring). -/
structure Transaction where
  date : Nat
  description : String
  amount : ℚ
  type : TransactionType
  balance : ℚ
  category : String
  subcategory : String
  confidence : ℚ
  rawText : String
  source : String
deriving DecidableEq, Repr

/-- CategorizationResult from `analyzer.go` (lines 714-720).  `index` is a Go
`int`, hence `Int` (the model may return negative indices). -/
structure CategorizationResult where
  index : Int
  category : String
  subcategory : String
  confidence : ℚ
deriving DecidableEq, Repr

/-- The anonymous record struct deserialized in `parseExtractionResponse`
(`analyzer.go` lines 470-475): `date`, `description`, `amount`, `type`. -/
structure ExtractionRecord where
  date : String
  description : String
  amount : ℚ
  type : String
deriving DecidableEq, Repr

/-! ## Date parsing

Model of Go `time.Parse("2006-01-02", s)` as used in `parseExtractionResponse`
(line 485): the layout demands exactly `DDDD-DD-DD` with zero-padded fields,
and Go validates the month range and the day against the month length
(including leap years). -/

def isDigitChar (c : Char) : Bool := '0' ≤ c ∧ c ≤ '9'

def digitVal (c : Char) : Nat := c.toNat - '0'.toNat

def isLeapYear (y : Nat) : Bool := (y % 4 = 0 ∧ y % 100 ≠ 0) ∨ y % 400 = 0

def daysInMonth (y m : Nat) : Nat :=
  if m = 2 then (if isLeapYear y then 29 else 28)
  else if m = 4 ∨ m = 6 ∨ m = 9 ∨ m = 11 then 30
  else 31

/-- Parse an ISO `YYYY-MM-DD` date; result is the monotone day encoding
`y*10000 + m*100 + d`. -/
def parseDate (s : String) : Option Nat :=
  match s.toList with
  | [y1, y2, y3, y4, s1, m1, m2, s2, d1, d2] =>
    if s1 = '-' ∧ s2 = '-' ∧ ([y1, y2, y3, y4, m1, m2, d1, d2].all isDigitChar) then
      let y := ((digitVal y1 * 10 + digitVal y2) * 10 + digitVal y3) * 10 + digitVal y4
      let m := digitVal m1 * 10 + digitVal m2
      let d := digitVal d1 * 10 + digitVal d2
      if 1 ≤ m ∧ m ≤ 12 ∧ 1 ≤ d ∧ d ≤ daysInMonth y m then
        some (y * 10000 + m * 100 + d)
      else none
    else none
  | _ => none

/-! ## Extraction record conversion (`parseExtractionResponse`, lines 481-509)

The loop converts each deserialized record to a `models.Transaction`: records
whose date does not parse are skipped; the type is `Credit` exactly when the
JSON `type` field is the string `"credit"`, otherwise `Debit`; category,
subcategory and confidence are left at their Go zero values. -/

def recordToTransaction (source : String) (r : ExtractionRecord) : Option Transaction :=
  match parseDate r.date with
  | none => none
  | some d =>
    some { date := d
           description := r.description
           amount := r.amount
           type := if r.type = "credit" then TransactionType.Credit else TransactionType.Debit
           balance := 0
           category := ""
           subcategory := ""
           confidence := 0
           rawText := r.description
           source := source }

/-- The conversion loop of `parseExtractionResponse` (lines 482-507): keep, in
order, every record whose date parses. -/
def convertRecords (records : List ExtractionRecord) (source : String) : List Transaction :=
  records.filterMap (recordToTransaction source)

/-! ## Categorization result application (`parseCategorizationResponse`, lines 745-753) -/

/-- Field update performed on the transaction at `result.Index`
(lines 748-751): category, subcategory and confidence are all overwritten. -/
def setCat (r : CategorizationResult) (tx : Transaction) : Transaction :=
  { tx with category := r.category, subcategory := r.subcategory, confidence := r.confidence }

/-- Replace the element at position `n` (functional model of the in-place
pointer mutation `transactions[result.Index]`). -/
def updateAt : List Transaction → Nat → (Transaction → Transaction) → List Transaction
  | [], _, _ => []
  | t :: ts, 0, f => f t :: ts
  | t :: ts, n + 1, f => t :: updateAt ts n f

/-- One iteration of the update loop: results with `0 <= Index < len` update
the transaction at that position, all others are ignored (lines 746-753). -/
def applyResult (txs : List Transaction) (r : CategorizationResult) : List Transaction :=
  if 0 ≤ r.index ∧ r.index < (txs.length : Int) then
    updateAt txs r.index.toNat (setCat r)
  else txs

/-- The full update loop over the deserialized results (lines 746-753). -/
def applyCategorizationResults (results : List CategorizationResult) (txs : List Transaction) :
    List Transaction :=
  results.foldl applyResult txs

/-- The last result in `results` whose index names position `i` (used to state
what the update loop leaves at position `i`). -/
def lastResultFor : List CategorizationResult → Nat → Option CategorizationResult
  | [], _ => none
  | r :: rs, i =>
    match lastResultFor rs i with
    | some r' => some r'
    | none => if r.index = (i : Int) then some r else none

/-! ## Summary statistics (`calculateSummary`, lines 860-900)

`CategoryTotals` is a Go `map[string]float64`; reading an absent key yields
the zero value, so the map is modelled as a total function `String → ℚ`
defaulting to `0`. -/

structure SummaryStats where
  startDate : Nat
  endDate : Nat
  categoryTotals : String → ℚ
  totalIncome : ℚ
  totalExpenses : ℚ
  netAmount : ℚ

/-- One iteration of the loop at lines 874-893. -/
def summaryStep (s : SummaryStats) (tx : Transaction) : SummaryStats :=
  { startDate := if tx.date < s.startDate then tx.date else s.startDate
    endDate := if s.endDate < tx.date then tx.date else s.endDate
    categoryTotals :=
      if tx.category ≠ "" then
        fun c => if c = tx.category then s.categoryTotals c + tx.amount else s.categoryTotals c
      else s.categoryTotals
    totalIncome :=
      if tx.type = TransactionType.Credit then s.totalIncome + tx.amount else s.totalIncome
    totalExpenses :=
      if tx.type = TransactionType.Credit then s.totalExpenses else s.totalExpenses + tx.amount
    netAmount := s.netAmount }

/-- calculateSummary (lines 860-900): empty input returns the zero summary;
otherwise the date range is initialised from the first transaction, the loop
accumulates totals, and `NetAmount := TotalIncome - TotalExpenses` at the end. -/
def calculateSummary (transactions : List Transaction) : SummaryStats :=
  match transactions with
  | [] =>
    { startDate := 0, endDate := 0, categoryTotals := fun _ => 0
      totalIncome := 0, totalExpenses := 0, netAmount := 0 }
  | tx0 :: _ =>
    let init : SummaryStats :=
      { startDate := tx0.date, endDate := tx0.date, categoryTotals := fun _ => 0
        totalIncome := 0, totalExpenses := 0, netAmount := 0 }
    let s := transactions.foldl summaryStep init
    { s with netAmount := s.totalIncome - s.totalExpenses }

/-! ## Categorization batching (`CategorizeTransactions`, lines 136-166)

`categorizeBatch` (lines 512-538) builds a prompt, calls the Claude API and
parses the response.  The API call plus parse is modelled by a `BatchOutcome`
oracle indexed by the 0-based batch number: `failure` covers a call error, a
JSON-extraction error or an unmarshal error; `success results` yields the
deserialized result list that the update loop then applies. -/

inductive BatchOutcome where
  | failure
  | success (results : List CategorizationResult)
deriving DecidableEq, Repr

/-- Error surfaced by `CategorizeTransactions` (line 155); the payload is the
1-based batch number `i/batchSize+1` from the Go error message. -/
inductive CatError where
  | batchFailed (n : Nat)
deriving DecidableEq, Repr

/-- The batching loop of `CategorizeTransactions` (lines 146-162): slices of
30, each batch processed by `categorizeBatch`; a batch error is returned
immediately (mutations to earlier batches persist in the caller's slice).
Returns the final state of the transaction list plus the error, if any. -/
def categorizeLoop (oracle : Nat → BatchOutcome) (batchIdx : Nat)
    (remaining : List Transaction) : List Transaction × Option CatError :=
  if h : remaining = [] then ([], none)
  else
    let batch := remaining.take 30
    let rest := remaining.drop 30
    match oracle batchIdx with
    | BatchOutcome.failure => (remaining, some (CatError.batchFailed (batchIdx + 1)))
    | BatchOutcome.success results =>
      let batch' := applyCategorizationResults results batch
      let out := categorizeLoop oracle (batchIdx + 1) rest
      (batch' ++ out.1, out.2)
termination_by remaining.length
decreasing_by
  simp only [List.length_drop]
  have : 0 < remaining.length := List.length_pos.mpr h
  omega

/-- CategorizeTransactions (lines 136-166): an empty list is a no-op success;
otherwise run the batch loop. -/
def categorizeTransactions (oracle : Nat → BatchOutcome)
    (transactions : List Transaction) : List Transaction × Option CatError :=
  if transactions = [] then (transactions, none)
  else categorizeLoop oracle 0 transactions

/-! ## Chunker (`splitTextForExtraction`, lines 673-712) -/

/-- Go `strings.Split(text, "\n")`. -/
def splitLines : List Char → List (List Char)
  | [] => [[]]
  | c :: rest =>
    match splitLines rest with
    | l :: ls => if c = '\n' then [] :: l :: ls else (c :: l) :: ls
    | [] => [[c]]

/-- Whitespace recognised by Go `strings.TrimSpace` (ASCII part). -/
def isSpaceGo (c : Char) : Bool :=
  c = ' ' ∨ c = '\t' ∨ c = '\n' ∨ c = (Char.ofNat 11) ∨ c = (Char.ofNat 12) ∨ c = '\r'

/-- Go `strings.TrimSpace`. -/
def trimSpace (s : List Char) : List Char :=
  ((s.dropWhile isSpaceGo).reverse.dropWhile isSpaceGo).reverse

/-- Line 684: `strings.HasPrefix(strings.TrimSpace(line), "--- Page ")`. -/
def pageBoundaryLine (line : List Char) : Bool :=
  List.isPrefixOf ("--- Page ".toList) (trimSpace line)

/-- Join helper: prepends a newline to each line and concatenates (used to
state what `strings.Builder` accumulates). -/
def joinTail (lines : List (List Char)) : List Char :=
  (lines.map (fun l => '\n' :: l)).flatten

/-- Inverse of `splitLines`: join lines with newlines. -/
def joinLines : List (List Char) → List Char
  | [] => []
  | l :: ls => l ++ joinTail ls

/-- Accumulator of the page-aware splitting loop (lines 680-695):
`chunks` built so far and the `strings.Builder` contents. -/
structure ChunkState where
  chunks : List (List Char)
  current : List Char

/-- One iteration of the loop at lines 682-692: when adding the line would
overflow the chunk and the line is a page boundary, the builder is flushed
and reset (so the line is then written to the empty builder without a
newline); otherwise the line is appended, preceded by a newline exactly when
the builder is non-empty. -/
def chunkStep (chunkSize : Nat) (st : ChunkState) (line : List Char) : ChunkState :=
  if chunkSize < st.current.length + line.length + 1 ∧ pageBoundaryLine line then
    { chunks := st.chunks ++ [st.current], current := line }
  else if 0 < st.current.length then
    { chunks := st.chunks, current := st.current ++ '\n' :: line }
  else
    { chunks := st.chunks, current := st.current ++ line }

/-- The page-aware pass of `splitTextForExtraction` (lines 679-695). -/
def softChunks (chunkSize : Nat) (lines : List (List Char)) : List (List Char) :=
  let st := lines.foldl (chunkStep chunkSize) ⟨[], []⟩
  if 0 < st.current.length then st.chunks ++ [st.current] else st.chunks

/-- Fuel-indexed slicing loop; the fuel (instantiated with the chunk length,
which bounds the number of slices whenever `chunkSize > 0`) only forces
termination and is never exhausted on the instantiation used. -/
def hardSplitAux (chunkSize : Nat) : Nat → List Char → List (List Char)
  | 0, c => [c]
  | fuel + 1, c =>
    if c.length ≤ chunkSize ∨ chunkSize = 0 then [c]
    else c.take chunkSize :: hardSplitAux chunkSize fuel (c.drop chunkSize)

/-- The hard-split pass (lines 697-711): oversized chunks are cut into
`chunkSize`-sized slices.  Go's loop does not terminate for `chunkSize = 0`
(unreachable there: the callers use 12000 or an override > 1000); the model
returns the chunk unsliced in that case to stay total. -/
def hardSplit (chunkSize : Nat) (c : List Char) : List (List Char) :=
  hardSplitAux chunkSize c.length c

/-- splitTextForExtraction (lines 673-712). -/
def splitTextForExtraction (text : List Char) (chunkSize : Nat) : List (List Char) :=
  if text.length ≤ chunkSize then [text]
  else ((softChunks chunkSize (splitLines text)).map (hardSplit chunkSize)).flatten

/-! ## Extraction engine (`ExtractTransactionsFromText`, lines 168-206, and
`extractFromChunkRecursive`, lines 255-308)

The Claude call plus `parseExtractionResponse` on one chunk is modelled by a
`ChunkOutcome` oracle keyed by the chunk text: `callError` is a failed
`callClaudeAPI` (returned immediately, line 276), `parsed txs` a successful
parse, `parseError` a reply that did not parse (which triggers bisection for
chunks over 6000 characters, lines 284-296). -/

inductive ChunkOutcome where
  | callError
  | parsed (txs : List Transaction)
  | parseError
deriving DecidableEq, Repr

inductive ExtractError where
  | apiError
  | parseFailed
  | depthExhausted
deriving DecidableEq, Repr

/-- Fuel-indexed version of the recursive extraction; the fuel is
instantiated as `4 - depth`, so along every reachable call `fuel + depth = 4`
and the fuel-exhausted branch is unreachable (the `3 < depth` guard fires
first, exactly as Go's `depth > 3` check). -/
def extractFromChunkRecursiveAux (oracle : List Char → ChunkOutcome) :
    Nat → List Char → Nat → Except ExtractError (List Transaction)
  | fuel, chunk, depth =>
    if 3 < depth then Except.error ExtractError.depthExhausted
    else
      match fuel with
      | 0 => Except.error ExtractError.depthExhausted
      | fuel + 1 =>
        match oracle chunk with
        | ChunkOutcome.callError => Except.error ExtractError.apiError
        | ChunkOutcome.parsed txs => Except.ok txs
        | ChunkOutcome.parseError =>
          if 6000 < chunk.length then
            let mid := chunk.length / 2
            let leftTx :=
              (extractFromChunkRecursiveAux oracle fuel (chunk.take mid)
                (depth + 1)).toOption.getD []
            let rightTx :=
              (extractFromChunkRecursiveAux oracle fuel (chunk.drop mid)
                (depth + 1)).toOption.getD []
            let combined := leftTx ++ rightTx
            if combined = [] then Except.error ExtractError.parseFailed
            else Except.ok combined
          else Except.error ExtractError.parseFailed

/-- extractFromChunkRecursive (lines 255-308).  Depth is capped at 3; on a
parse failure over a chunk longer than 6000 the chunk is bisected at its
midpoint and each half retried with errors discarded; a non-empty combined
result is returned, otherwise the parse failure. -/
def extractFromChunkRecursive (oracle : List Char → ChunkOutcome)
    (chunk : List Char) (depth : Nat) : Except ExtractError (List Transaction) :=
  extractFromChunkRecursiveAux oracle (4 - depth) chunk depth

/-- The per-chunk loop of `ExtractTransactionsFromText` (lines 187-202): chunk
results are concatenated in order; any chunk error aborts the whole call and
discards everything accumulated (line 195 returns `nil, err`). -/
def extractChunksLoop (oracle : List Char → ChunkOutcome) :
    List (List Char) → Except ExtractError (List Transaction)
  | [] => Except.ok []
  | c :: cs =>
    match extractFromChunkRecursive oracle c 0 with
    | Except.error e => Except.error e
    | Except.ok txs =>
      match extractChunksLoop oracle cs with
      | Except.error e => Except.error e
      | Except.ok rest => Except.ok (txs ++ rest)

/-- ExtractTransactionsFromText (lines 168-206) with the default
configuration (`onlyFirstChunk = false`); `chunkSize` is 12000 by default or
any environment override greater than 1000 (lines 173-178). -/
def extractTransactionsFromText (oracle : List Char → ChunkOutcome)
    (text : List Char) (chunkSize : Nat) : Except ExtractError (List Transaction) :=
  extractChunksLoop oracle (splitTextForExtraction text chunkSize)

/-! ## Response parser (`extractJSONFromResponse`, lines 310-380, and
`buildJSONArrayFromObjects`, lines 382-447)

The Go scanners iterate bytes/runes and compare against ASCII characters;
both loops are mirrored as `List Char` state machines.  The brace characters
are written via `Char.ofNat` (123 and 125). -/

def lbraceChar : Char := Char.ofNat 123

def rbraceChar : Char := Char.ofNat 125

/-- Option accumulator standing for Go's `start` index: `none` means
`start == -1`; `some a` holds the scanned span so far, reversed. -/
def pushSpan (c : Char) : Option (List Char) → Option (List Char)
  | none => none
  | some a => some (c :: a)

/-- The quote-aware bracket scanner `findJSONArray` (lines 315-355):
state is (input, inString, escaped, depth, span accumulator). -/
def findJSONArrayAux : List Char → Bool → Bool → Nat → Option (List Char) → Option (List Char)
  | [], _, _, _, _ => none
  | c :: rest, inString, escaped, depth, acc =>
    if inString then
      if escaped then findJSONArrayAux rest true false depth (pushSpan c acc)
      else if c = '\\' then findJSONArrayAux rest true true depth (pushSpan c acc)
      else if c = '"' then findJSONArrayAux rest false false depth (pushSpan c acc)
      else findJSONArrayAux rest true false depth (pushSpan c acc)
    else if c = '"' then findJSONArrayAux rest true false depth (pushSpan c acc)
    else if c = '[' then
      if depth = 0 then findJSONArrayAux rest false false 1 (some [c])
      else findJSONArrayAux rest false false (depth + 1) (pushSpan c acc)
    else if c = ']' then
      if depth = 0 then findJSONArrayAux rest false false depth acc
      else if depth = 1 then
        match acc with
        | some a => some (c :: a).reverse
        | none => findJSONArrayAux rest false false 0 acc
      else findJSONArrayAux rest false false (depth - 1) (pushSpan c acc)
    else findJSONArrayAux rest false false depth (pushSpan c acc)

def findJSONArray (s : List Char) : Option (List Char) :=
  findJSONArrayAux s false false 0 none

/-- Go `strings.Index(s, pat)`: index of the first occurrence. -/
def indexOfSub (pat : List Char) : List Char → Option Nat
  | [] => if pat = [] then some 0 else none
  | s@(_ :: rest) =>
    if List.isPrefixOf pat s then some 0
    else (indexOfSub pat rest).map (· + 1)

def backtickFence : List Char := "```".toList

inductive ParseErr where
  | noJSONFound
  | noObjects
  | validateFailed
deriving DecidableEq, Repr

/-- extractJSONFromResponse (lines 310-380): trim, direct array scan, then
the two fenced-block fallbacks. -/
def extractJSONFromResponse (content : List Char) : Except ParseErr (List Char) :=
  let content := trimSpace content
  match findJSONArray content with
  | some arr => Except.ok arr
  | none =>
    let jsonTier :=
      match indexOfSub ("```json".toList) content with
      | none => none
      | some start =>
        let after := content.drop (start + 7)
        match indexOfSub backtickFence after with
        | none => none
        | some e => findJSONArray (after.take e)
    match jsonTier with
    | some arr => Except.ok arr
    | none =>
      let anyTier :=
        match indexOfSub backtickFence content with
        | none => none
        | some start =>
          let after := content.drop (start + 3)
          match indexOfSub backtickFence after with
          | none => none
          | some e => findJSONArray (after.take e)
      match anyTier with
      | some arr => Except.ok arr
      | none => Except.error ParseErr.noJSONFound

/-- Model of `regexp.MustCompile("▲▲▲[a-zA-Z]*[\\s\\S]*?▲▲▲").ReplaceAllString(s, "")`
(line 390-391, with ▲▲▲ the triple-backtick fence): each leftmost match spans
from a fence to the next fence after it; matches are removed
non-overlappingly, an unpaired trailing fence stays. -/
def removeFencedBlocks : List Char → List Char
  | [] => []
  | s@(_ :: _) =>
    match indexOfSub backtickFence s with
    | none => s
    | some i =>
      match indexOfSub backtickFence (s.drop (i + 3)) with
      | none => s
      | some j => s.take i ++ removeFencedBlocks (s.drop (i + 3 + j + 3))
termination_by s => s.length
decreasing_by
  simp only [List.length_drop]
  simp_all [List.length_cons]
  omega

/-- The top-level object scanner of `buildJSONArrayFromObjects`
(lines 394-433): same quote/escape handling, brace depth, collecting every
top-level balanced object span. -/
def scanObjectsAux : List Char → Bool → Bool → Nat → Option (List Char) → List (List Char)
  | [], _, _, _, _ => []
  | c :: rest, inString, escaped, depth, acc =>
    if inString then
      if escaped then scanObjectsAux rest true false depth (pushSpan c acc)
      else if c = '\\' then scanObjectsAux rest true true depth (pushSpan c acc)
      else if c = '"' then scanObjectsAux rest false false depth (pushSpan c acc)
      else scanObjectsAux rest true false depth (pushSpan c acc)
    else if c = '"' then scanObjectsAux rest true false depth (pushSpan c acc)
    else if c = lbraceChar then
      if depth = 0 then scanObjectsAux rest false false 1 (some [c])
      else scanObjectsAux rest false false (depth + 1) (pushSpan c acc)
    else if c = rbraceChar then
      if depth = 0 then scanObjectsAux rest false false depth acc
      else if depth = 1 then
        match acc with
        | some a => (c :: a).reverse :: scanObjectsAux rest false false 0 none
        | none => scanObjectsAux rest false false 0 acc
      else scanObjectsAux rest false false (depth - 1) (pushSpan c acc)
    else scanObjectsAux rest false false depth (pushSpan c acc)

def scanObjects (s : List Char) : List (List Char) :=
  scanObjectsAux s false false 0 none

/-- Go `strings.Join(objects, ",")`. -/
def joinComma : List (List Char) → List Char
  | [] => []
  | [o] => o
  | o :: os => o ++ ',' :: joinComma os

/-! ### JSON validator

Model of `json.Unmarshal(array, &tmp)` with `tmp []map[string]interface{}`
(lines 442-445): the input must be one JSON value — an array whose elements
are objects (or `null`), or the literal `null` — followed only by
whitespace.  Recursive descent with a fuel parameter; the fuel passed at the
top (`length + 1`) exceeds the recursion any input of that length can need,
since every recursive call consumes at least one character first. -/

def skipWS (s : List Char) : List Char :=
  s.dropWhile (fun c => c = ' ' ∨ c = '\t' ∨ c = '\n' ∨ c = '\r')

def isHexChar (c : Char) : Bool :=
  isDigitChar c ∨ ('a' ≤ c ∧ c ≤ 'f') ∨ ('A' ≤ c ∧ c ≤ 'F')

/-- Consume a JSON string body (opening quote already consumed). -/
def parseJSONStringBody : List Char → Option (List Char)
  | [] => none
  | '"' :: rest => some rest
  | '\\' :: 'u' :: h1 :: h2 :: h3 :: h4 :: rest =>
    if [h1, h2, h3, h4].all isHexChar then parseJSONStringBody rest else none
  | '\\' :: e :: rest =>
    if e = '"' ∨ e = '\\' ∨ e = '/' ∨ e = 'b' ∨ e = 'f' ∨ e = 'n' ∨ e = 'r' ∨ e = 't' then
      parseJSONStringBody rest
    else none
  | c :: rest =>
    if c.toNat < 32 then none
    else parseJSONStringBody rest

/-- Consume a JSON number (first character already known to start one). -/
def parseJSONNumber (s : List Char) : Option (List Char) :=
  let s1 := match s with
    | '-' :: r => r
    | _ => s
  match s1 with
  | '0' :: r =>
    let afterInt := r
    let afterFrac :=
      match afterInt with
      | '.' :: f =>
        if (f.takeWhile isDigitChar) = [] then none
        else some (f.dropWhile isDigitChar)
      | _ => some afterInt
    match afterFrac with
    | none => none
    | some t =>
      match t with
      | e :: t2 =>
        if e = 'e' ∨ e = 'E' then
          let t3 := match t2 with
            | '+' :: u => u
            | '-' :: u => u
            | _ => t2
          if (t3.takeWhile isDigitChar) = [] then none
          else some (t3.dropWhile isDigitChar)
        else some t
      | [] => some t
  | c :: r =>
    if isDigitChar c ∧ c ≠ '0' then
      let afterInt := r.dropWhile isDigitChar
      let afterFrac :=
        match afterInt with
        | '.' :: f =>
          if (f.takeWhile isDigitChar) = [] then none
          else some (f.dropWhile isDigitChar)
        | _ => some afterInt
      match afterFrac with
      | none => none
      | some t =>
        match t with
        | e :: t2 =>
          if e = 'e' ∨ e = 'E' then
            let t3 := match t2 with
              | '+' :: u => u
              | '-' :: u => u
              | _ => t2
            if (t3.takeWhile isDigitChar) = [] then none
            else some (t3.dropWhile isDigitChar)
          else some t
        | [] => some t
    else none
  | [] => none

mutual

/-- Consume one JSON value. -/
def parseJSONValue : Nat → List Char → Option (List Char)
  | 0, _ => none
  | fuel + 1, s =>
    let s := skipWS s
    match s with
    | [] => none
    | c :: rest =>
      if c = '"' then parseJSONStringBody rest
      else if c = lbraceChar then parseJSONMembers fuel rest true
      else if c = '[' then parseJSONElements fuel rest true
      else if List.isPrefixOf ("true".toList) s then some (s.drop 4)
      else if List.isPrefixOf ("false".toList) s then some (s.drop 5)
      else if List.isPrefixOf ("null".toList) s then some (s.drop 4)
      else if c = '-' ∨ isDigitChar c then parseJSONNumber s
      else none

/-- Consume object members plus the closing brace (opening brace consumed);
`first` marks whether no member has been read yet. -/
def parseJSONMembers : Nat → List Char → Bool → Option (List Char)
  | 0, _, _ => none
  | fuel + 1, s, first =>
    let s := skipWS s
    match s with
    | [] => none
    | c :: rest =>
      if c = rbraceChar then (if first then some rest else none)
      else if c = '"' then
        match parseJSONStringBody rest with
        | none => none
        | some afterKey =>
          match skipWS afterKey with
          | ':' :: afterColon =>
            match parseJSONValue fuel afterColon with
            | none => none
            | some afterVal =>
              match skipWS afterVal with
              | ',' :: afterComma => parseJSONMoreMembers fuel afterComma
              | d :: afterBrace =>
                if d = rbraceChar then some afterBrace else none
              | [] => none
          | _ => none
      else none

/-- After a comma inside an object: a member must follow. -/
def parseJSONMoreMembers : Nat → List Char → Option (List Char)
  | 0, _ => none
  | fuel + 1, s =>
    match skipWS s with
    | '"' :: rest =>
      match parseJSONStringBody rest with
      | none => none
      | some afterKey =>
        match skipWS afterKey with
        | ':' :: afterColon =>
          match parseJSONValue fuel afterColon with
          | none => none
          | some afterVal =>
            match skipWS afterVal with
            | ',' :: afterComma => parseJSONMoreMembers fuel afterComma
            | d :: afterBrace =>
              if d = rbraceChar then some afterBrace else none
            | [] => none
        | _ => none
    | _ => none

/-- Consume array elements plus the closing bracket (opening consumed). -/
def parseJSONElements : Nat → List Char → Bool → Option (List Char)
  | 0, _, _ => none
  | fuel + 1, s, first =>
    let s := skipWS s
    match s with
    | [] => none
    | c :: rest =>
      if c = ']' then (if first then some rest else none)
      else
        match parseJSONValue fuel s with
        | none => none
        | some afterVal =>
          match skipWS afterVal with
          | ',' :: afterComma => parseJSONElements fuel afterComma false
          | ']' :: afterBracket => some afterBracket
          | _ => none

end

/-- Elements of the top-level array must unmarshal into
`map[string]interface{}`: each is an object or the literal `null`. -/
def parseObjectElements : Nat → List Char → Bool → Option (List Char)
  | 0, _, _ => none
  | fuel + 1, s, first =>
    let s := skipWS s
    match s with
    | [] => none
    | c :: rest =>
      if c = ']' then (if first then some rest else none)
      else if c = lbraceChar then
        match parseJSONMembers fuel rest true with
        | none => none
        | some afterVal =>
          match skipWS afterVal with
          | ',' :: afterComma => parseObjectElements fuel afterComma false
          | ']' :: afterBracket => some afterBracket
          | _ => none
      else if List.isPrefixOf ("null".toList) s then
        match skipWS (s.drop 4) with
        | ',' :: afterComma => parseObjectElements fuel afterComma false
        | ']' :: afterBracket => some afterBracket
        | _ => none
      else none

/-- Success of `json.Unmarshal(s, &tmp)` with `tmp []map[string]interface{}`. -/
def validArrayOfObjects (s : List Char) : Bool :=
  match skipWS s with
  | '[' :: rest =>
    match parseObjectElements (s.length + 1) rest true with
    | some r => skipWS r = []
    | none => false
  | t =>
    if List.isPrefixOf ("null".toList) t then skipWS (t.drop 4) = [] else false

/-- buildJSONArrayFromObjects (lines 385-447): strip fenced blocks when a
fence is present, scan for top-level objects, join them into an array and
validate it. -/
def buildJSONArrayFromObjects (content : List Char) : Except ParseErr (List Char) :=
  let cleaned :=
    if (indexOfSub backtickFence content).isSome then removeFencedBlocks content
    else content
  let objects := scanObjects cleaned
  if objects = [] then Except.error ParseErr.noObjects
  else
    let array := '[' :: joinComma objects ++ [']']
    if validArrayOfObjects array then Except.ok array
    else Except.error ParseErr.validateFailed

/-- The JSON-recovery stage of `parseExtractionResponse` (lines 459-467):
direct extraction, then the standalone-objects fallback; if both fail the
original extraction error is reported. -/
def recoverJSONArray (content : List Char) : Except ParseErr (List Char) :=
  match extractJSONFromResponse content with
  | Except.ok j => Except.ok j
  | Except.error e =>
    match buildJSONArrayFromObjects content with
    | Except.ok fb => Except.ok fb
    | Except.error _ => Except.error e

/-! ## LLM client retry loop (`callClaudeAPI`, lines 583-671)

The HTTP transport is modelled by an oracle mapping the attempt number
(1-based) to an outcome: a transport-level timeout or an HTTP status code.
The trace records the result, the number of HTTP requests issued and the
backoff sleeps (in seconds) taken between attempts. -/

inductive APIOutcome where
  | timeout
  | connectionError
  | httpStatus (code : Nat)

inductive APIError where
  | budgetExceeded
  | transport
  | httpFail (code : Nat)
deriving DecidableEq, Repr

instance {ε α : Type} [DecidableEq ε] [DecidableEq α] : DecidableEq (Except ε α) :=
  fun a b =>
    match a, b with
    | Except.ok x, Except.ok y =>
      if h : x = y then isTrue (by rw [h]) else isFalse (by simp [h])
    | Except.error x, Except.error y =>
      if h : x = y then isTrue (by rw [h]) else isFalse (by simp [h])
    | Except.ok _, Except.error _ => isFalse (by simp)
    | Except.error _, Except.ok _ => isFalse (by simp)

structure CallTrace where
  result : Except APIError Unit
  calls : Nat
  backoffsSeconds : List Nat
deriving DecidableEq, Repr

/-- The attempt loop of `callClaudeAPI` (lines 615-665): up to 3 attempts;
a timeout retries with backoff `attempt*2` seconds when `attempt < 3`; a
non-timeout transport error fails immediately; status 200 succeeds (the
response body and its decoding, which also cannot trigger a retry, are
outside this model); 429 and 5xx retry with the same backoff when
`attempt < 3`; every other status fails immediately. -/
def attemptLoop (oracle : Nat → APIOutcome) (attempt : Nat) : CallTrace :=
  if h : 3 ≤ attempt then
    match oracle attempt with
    | APIOutcome.timeout => ⟨Except.error APIError.transport, 1, []⟩
    | APIOutcome.connectionError => ⟨Except.error APIError.transport, 1, []⟩
    | APIOutcome.httpStatus code =>
      if code = 200 then ⟨Except.ok (), 1, []⟩
      else ⟨Except.error (APIError.httpFail code), 1, []⟩
  else
    match oracle attempt with
    | APIOutcome.timeout =>
      let t := attemptLoop oracle (attempt + 1)
      ⟨t.result, t.calls + 1, attempt * 2 :: t.backoffsSeconds⟩
    | APIOutcome.connectionError => ⟨Except.error APIError.transport, 1, []⟩
    | APIOutcome.httpStatus code =>
      if code = 200 then ⟨Except.ok (), 1, []⟩
      else if code = 429 ∨ 500 ≤ code then
        let t := attemptLoop oracle (attempt + 1)
        ⟨t.result, t.calls + 1, attempt * 2 :: t.backoffsSeconds⟩
      else ⟨Except.error (APIError.httpFail code), 1, []⟩
termination_by 3 - attempt
decreasing_by
  all_goals omega

/-- callClaudeAPI (lines 583-671) for a live (non-dry-run) client: the call
budget is checked first (lines 591-593); then the attempt loop runs from
attempt 1. -/
def callClaudeAPI (maxRequests requestsMade : Nat) (oracle : Nat → APIOutcome) : CallTrace :=
  if 0 < maxRequests ∧ maxRequests ≤ requestsMade then
    ⟨Except.error APIError.budgetExceeded, 0, []⟩
  else attemptLoop oracle 1

/-! ## Concrete inputs used by the claims -/

/-- First transaction of the spec's summary example:
`{amount:-50, type:debit, category:"Food"}`. -/
def specTx1 : Transaction :=
  { date := 20250101, description := "a", amount := -50, type := TransactionType.Debit
    balance := 0, category := "Food", subcategory := "", confidence := 1
    rawText := "a", source := "s" }

/-- Second transaction of the spec's summary example:
`{amount:200, type:credit, category:""}`. -/
def specTx2 : Transaction :=
  { date := 20250102, description := "b", amount := 200, type := TransactionType.Credit
    balance := 0, category := "", subcategory := "", confidence := 0
    rawText := "b", source := "s" }

def specSummaryInput : List Transaction := [specTx1, specTx2]

/-- A freshly extracted (uncategorized) transaction. -/
def blankTx : Transaction :=
  { date := 20250101, description := "t", amount := -1, type := TransactionType.Debit
    balance := 0, category := "", subcategory := "", confidence := 0
    rawText := "t", source := "s" }

/-- Batch of 5 uncategorized transactions (spec's index-mapping example). -/
def demoBatch5 : List Transaction := List.replicate 5 blankTx

/-- Results naming indices 0, 2, 4 and the out-of-range 7. -/
def demoResults4 : List CategorizationResult :=
  [⟨0, "Food & Dining", "Restaurants", 1⟩,
   ⟨2, "Transportation", "Gas", 1⟩,
   ⟨4, "Shopping", "Online Shopping", 1⟩,
   ⟨7, "Other", "Uncategorized", 1⟩]

/-- 31 transactions: two batches (30 + 1) under the fixed batch size 30. -/
def cexTxs31 : List Transaction := List.replicate 31 blankTx

/-- Batch oracle: batch 0 fails, every later batch would succeed and
categorize its first transaction. -/
def cexOracleC2 : Nat → BatchOutcome
  | 0 => BatchOutcome.failure
  | _ => BatchOutcome.success [⟨0, "Banking", "Fees", 1⟩]

/-- Batch oracle: batch 0 succeeds, every later batch fails. -/
def witOracleC2 : Nat → BatchOutcome
  | 0 => BatchOutcome.success [⟨0, "Banking", "Fees", 1⟩]
  | _ => BatchOutcome.failure

/-- A 2002-character text that splits (at chunk size 1001) into an `a`-chunk
followed by a `b`-chunk. -/
def cexTextC3 : List Char := List.replicate 1001 'a' ++ List.replicate 1001 'b'

/-- The same two chunks in the opposite order. -/
def witTextC3 : List Char := List.replicate 1001 'b' ++ List.replicate 1001 'a'

/-- Chunk oracle: chunks starting with 'b' parse to one transaction, all
others fail to parse. -/
def cexOracleC3 (c : List Char) : ChunkOutcome :=
  if c.headI = 'b' then ChunkOutcome.parsed [blankTx] else ChunkOutcome.parseError

/-- Text with a page-boundary marker line. -/
def demoChunkText : List Char := ("abcdef\n--- Page 2\nxyz").toList

/-- Reply wrapping a JSON array in a fenced block. -/
def exFenced : List Char := ("Here you go:\n```json\n[\x7b\"a\":1\x7d]\n```").toList

/-- Reply consisting of two bare JSON objects and no array. -/
def exObjects : List Char := ("\x7b\"a\":1\x7d\x7b\"b\":2\x7d").toList

/-- Reply with no recoverable JSON. -/
def exNoJSON : List Char := ("no json here").toList

def arrA1 : List Char := ("[\x7b\"a\":1\x7d]").toList

def arrA1B2 : List Char := ("[\x7b\"a\":1\x7d,\x7b\"b\":2\x7d]").toList

/-- String-literal content of the quote-awareness example. -/
def bracketInner : List Char := ("contains a ] bracket").toList

/-- Transport stub: HTTP 500 twice, then 200. -/
def oracle500 : Nat → APIOutcome
  | 1 => APIOutcome.httpStatus 500
  | 2 => APIOutcome.httpStatus 500
  | _ => APIOutcome.httpStatus 200

/-- Transport stub: always HTTP 404. -/
def oracle404 : Nat → APIOutcome := fun _ => APIOutcome.httpStatus 404

/-- A well-formed extraction record. -/
def demoRecord : ExtractionRecord :=
  ⟨"2025-01-15", "RESTAURANT ABC", -125000, "debit"⟩

/-- An extraction record whose type field is `"CREDIT"` (wrong case). -/
def demoRecordCREDIT : ExtractionRecord :=
  ⟨"2025-01-15", "PAYROLL", 200, "CREDIT"⟩

/-- The transaction `recordToTransaction "s" demoRecordCREDIT` produces. -/
def demoTxCREDIT : Transaction :=
  { date := 20250115, description := "PAYROLL", amount := 200
    type := TransactionType.Debit, balance := 0, category := "", subcategory := ""
    confidence := 0, rawText := "PAYROLL", source := "s" }

/-- The transaction `recordToTransaction "stmt.pdf" demoRecord` produces. -/
def demoExtractedTx : Transaction :=
  { date := 20250115, description := "RESTAURANT ABC", amount := -125000
    type := TransactionType.Debit, balance := 0, category := "", subcategory := ""
    confidence := 0, rawText := "RESTAURANT ABC", source := "stmt.pdf" }

/-- A categorization result carrying an empty category with non-zero
confidence (a shape the model can return; nothing in the code rejects it). -/
def emptyCategoryResult : CategorizationResult := ⟨0, "", "", 1⟩

/-! ## Helper lemmas -/

theorem updateAt_length (l : List Transaction) (n : Nat) (f : Transaction → Transaction) :
    (updateAt l n f).length = l.length := by
  induction l generalizing n with
  | nil => rfl
  | cons t ts ih =>
    cases n with
    | zero => rfl
    | succ m => simp [updateAt, ih]

theorem getElem?_updateAt_ne (l : List Transaction) (n : Nat) (f : Transaction → Transaction)
    (i : Nat) (h : i ≠ n) : (updateAt l n f)[i]? = l[i]? := by
  induction l generalizing n i with
  | nil => rfl
  | cons t ts ih =>
    cases n with
    | zero =>
      cases i with
      | zero => exact absurd rfl h
      | succ j => simp [updateAt]
    | succ m =>
      cases i with
      | zero => simp [updateAt]
      | succ j => simpa [updateAt] using ih m j (fun hh => h (by omega))

theorem getElem?_updateAt_eq (l : List Transaction) (n : Nat) (f : Transaction → Transaction) :
    (updateAt l n f)[n]? = (l[n]?).map f := by
  induction l generalizing n with
  | nil => rfl
  | cons t ts ih =>
    cases n with
    | zero => simp [updateAt]
    | succ m => simpa [updateAt] using ih m

theorem mem_updateAt (l : List Transaction) (n : Nat) (f : Transaction → Transaction)
    (x : Transaction) (h : x ∈ updateAt l n f) : x ∈ l ∨ ∃ y ∈ l, x = f y := by
  induction l generalizing n with
  | nil => simp [updateAt] at h
  | cons t ts ih =>
    cases n with
    | zero =>
      rw [show updateAt (t :: ts) 0 f = f t :: ts from rfl, List.mem_cons] at h
      rcases h with h | h
      · exact Or.inr ⟨t, List.mem_cons_self t ts, h⟩
      · exact Or.inl (List.mem_cons_of_mem t h)
    | succ m =>
      rw [show updateAt (t :: ts) (m + 1) f = t :: updateAt ts m f from rfl,
        List.mem_cons] at h
      rcases h with h | h
      · exact Or.inl (h ▸ List.mem_cons_self t ts)
      · rcases ih m h with h2 | ⟨y, hy, hxy⟩
        · exact Or.inl (List.mem_cons_of_mem t h2)
        · exact Or.inr ⟨y, List.mem_cons_of_mem t hy, hxy⟩

theorem applyResult_length (txs : List Transaction) (r : CategorizationResult) :
    (applyResult txs r).length = txs.length := by
  unfold applyResult
  split
  · exact updateAt_length txs r.index.toNat (setCat r)
  · rfl

theorem applyCategorizationResults_length (results : List CategorizationResult)
    (txs : List Transaction) :
    (applyCategorizationResults results txs).length = txs.length := by
  induction results generalizing txs with
  | nil => rfl
  | cons r rs ih =>
    show (applyCategorizationResults rs (applyResult txs r)).length = txs.length
    rw [ih, applyResult_length]

theorem setCat_setCat (r r' : CategorizationResult) (tx : Transaction) :
    setCat r' (setCat r tx) = setCat r' tx := rfl

theorem getElem?_applyResult_ne (txs : List Transaction) (r : CategorizationResult)
    (i : Nat) (h : r.index ≠ (i : Int)) : (applyResult txs r)[i]? = txs[i]? := by
  unfold applyResult
  split
  · next hin =>
    refine getElem?_updateAt_ne txs r.index.toNat (setCat r) i (fun hi => h ?_)
    rw [← Int.toNat_of_nonneg hin.1, hi]
  · rfl

theorem getElem?_applyResult_eq (txs : List Transaction) (r : CategorizationResult)
    (i : Nat) (hlt : i < txs.length) (h : r.index = (i : Int)) :
    (applyResult txs r)[i]? = (txs[i]?).map (setCat r) := by
  unfold applyResult
  rw [if_pos ⟨by omega, by omega⟩]
  have : r.index.toNat = i := by omega
  rw [this]
  exact getElem?_updateAt_eq txs i (setCat r)

/-! ## Claim C4: categorization index mapping -/

theorem getElem?_applyCategorizationResults (results : List CategorizationResult) :
    ∀ (txs : List Transaction) (i : Nat), i < txs.length →
      (applyCategorizationResults results txs)[i]? =
        (match lastResultFor results i with
         | some r => (txs[i]?).map (setCat r)
         | none => txs[i]?) := by
  induction results with
  | nil => intro txs i _; rfl
  | cons r rs ih =>
    intro txs i hi
    have step :
        applyCategorizationResults (r :: rs) txs
          = applyCategorizationResults rs (applyResult txs r) := rfl
    have hlen : i < (applyResult txs r).length := by rw [applyResult_length]; exact hi
    rw [step, ih (applyResult txs r) i hlen]
    by_cases hridx : r.index = (i : Int)
    · rw [getElem?_applyResult_eq txs r i hi hridx]
      cases hlast : lastResultFor rs i with
      | some r' =>
        simp only [lastResultFor, hlast, Option.map_map]
        rfl
      | none =>
        simp only [lastResultFor, hlast, if_pos hridx]
    · rw [getElem?_applyResult_ne txs r i hridx]
      cases hlast : lastResultFor rs i with
      | some r' => simp only [lastResultFor, hlast]
      | none => simp only [lastResultFor, hlast, if_neg hridx]

theorem applyCategorizationResults_filter (results : List CategorizationResult) :
    ∀ txs : List Transaction,
      applyCategorizationResults results txs
        = applyCategorizationResults
            (results.filter (fun r => decide (0 ≤ r.index) && decide (r.index < (txs.length : Int))))
            txs := by
  induction results with
  | nil => intro txs; rfl
  | cons r rs ih =>
    intro txs
    by_cases hin : 0 ≤ r.index ∧ r.index < (txs.length : Int)
    · have hfil : (r :: rs).filter
            (fun r => decide (0 ≤ r.index) && decide (r.index < (txs.length : Int)))
          = r :: rs.filter
              (fun r => decide (0 ≤ r.index) && decide (r.index < (txs.length : Int))) := by
        simp [List.filter_cons, hin.1, hin.2]
      rw [hfil]
      show applyCategorizationResults rs (applyResult txs r)
        = applyCategorizationResults
            (rs.filter (fun r => decide (0 ≤ r.index) && decide (r.index < (txs.length : Int))))
            (applyResult txs r)
      rw [ih (applyResult txs r)]
      simp only [applyResult_length]
    · have hfil : (r :: rs).filter
            (fun r => decide (0 ≤ r.index) && decide (r.index < (txs.length : Int)))
          = rs.filter
              (fun r => decide (0 ≤ r.index) && decide (r.index < (txs.length : Int))) := by
        rcases not_and_or.mp hin with h | h <;> simp [List.filter_cons, h]
      have hnoop : applyResult txs r = txs := by
        unfold applyResult; rw [if_neg hin]
      rw [hfil]
      show applyCategorizationResults rs (applyResult txs r) = _
      rw [hnoop, ih txs]

/-- Claim C4: for every batch and every result list, the update loop of
`parseCategorizationResponse` preserves the batch length (it is total: no
error is possible), leaves position `i` at its original value unless some
result names `i`, in which case it carries the category, subcategory and
confidence of the last such result, and behaves as if every out-of-range
result (negative or `>= n`) had been removed. -/
theorem categorization_index_mapping (results : List CategorizationResult)
    (txs : List Transaction) :
    (applyCategorizationResults results txs).length = txs.length
    ∧ (∀ i : Nat, i < txs.length →
        (applyCategorizationResults results txs)[i]? =
          (match lastResultFor results i with
           | some r => (txs[i]?).map (setCat r)
           | none => txs[i]?))
    ∧ applyCategorizationResults results txs
        = applyCategorizationResults
            (results.filter (fun r => decide (0 ≤ r.index) && decide (r.index < (txs.length : Int))))
            txs :=
  ⟨applyCategorizationResults_length results txs,
   fun i hi => getElem?_applyCategorizationResults results txs i hi,
   applyCategorizationResults_filter results txs⟩

/-- Claim C4 witness: the spec's instance.  In a batch of 5 with result
indices `[0,2,4,7]`: position 1 keeps its original (uncategorized) value,
position 0 receives the result naming it, the out-of-range index 7 changes
nothing, and the batch keeps length 5. -/
theorem categorization_index_mapping_witness :
    (applyCategorizationResults demoResults4 demoBatch5).length = 5
    ∧ (applyCategorizationResults demoResults4 demoBatch5)[1]? = demoBatch5[1]?
    ∧ (applyCategorizationResults demoResults4 demoBatch5)[0]? =
        (demoBatch5[0]?).map (setCat ⟨0, "Food & Dining", "Restaurants", 1⟩) := by
  refine ⟨(categorization_index_mapping demoResults4 demoBatch5).1, ?_, ?_⟩
  · exact ((categorization_index_mapping demoResults4 demoBatch5).2.1 1 (by decide)).trans
      (by decide)
  · exact ((categorization_index_mapping demoResults4 demoBatch5).2.1 0 (by decide)).trans
      (by decide)

/-! ## Claim C9: categorization-state invariant -/

/-- Claim C9 counterexample: `parseCategorizationResponse` copies the result
fields verbatim, so a model-returned result with an empty category and
non-zero confidence (nothing in the code rejects it) drives a freshly
extracted transaction into the partial state `category = "" ∧ confidence ≠ 0`
in a single categorization step — the claim's invariant fails for arbitrary
model results. -/
theorem categorization_invariant_cex :
    (applyCategorizationResults [emptyCategoryResult] (convertRecords [demoRecord] "stmt.pdf")).map
      (fun tx => (tx.category, tx.confidence)) = [("", 1)] := by
  decide

theorem applyResults_preserves_invariant (results : List CategorizationResult) :
    ∀ txs : List Transaction,
      (∀ r ∈ results, r.category = "" → r.confidence = 0) →
      (∀ tx ∈ txs, tx.category = "" → tx.confidence = 0) →
      ∀ tx ∈ applyCategorizationResults results txs, tx.category = "" → tx.confidence = 0 := by
  induction results with
  | nil => intro txs _ htxs tx htx; exact htxs tx htx
  | cons r rs ih =>
    intro txs hres htxs tx htx
    refine ih (applyResult txs r) (fun r' hr' => hres r' (List.mem_cons_of_mem r hr'))
      ?_ tx htx
    intro t ht
    unfold applyResult at ht
    split at ht
    · rcases mem_updateAt txs r.index.toNat (setCat r) t ht with hmem | ⟨y, _, hy⟩
      · exact htxs t hmem
      · intro hcat
        have hc : r.category = "" := by rw [hy] at hcat; exact hcat
        rw [hy]
        exact hres r (List.mem_cons_self r rs) hc
    · exact htxs t ht

/-- Claim C9 (amended): extraction output is always fully uncategorized
(empty category and subcategory, zero confidence), and a categorization step
preserves the invariant `category = "" → confidence = 0` provided every
applied result that carries an empty category also carries zero confidence.
Without that restriction on the model's results the invariant fails (see the
counterexample). -/
theorem categorization_invariant (records : List ExtractionRecord) (src : String)
    (results : List CategorizationResult) (txs : List Transaction)
    (hres : ∀ r ∈ results, r.category = "" → r.confidence = 0)
    (htxs : ∀ tx ∈ txs, tx.category = "" → tx.confidence = 0) :
    (∀ tx ∈ convertRecords records src,
        tx.category = "" ∧ tx.subcategory = "" ∧ tx.confidence = 0)
    ∧ (∀ tx ∈ applyCategorizationResults results txs,
        tx.category = "" → tx.confidence = 0) := by
  constructor
  · intro tx htx
    rcases List.mem_filterMap.mp htx with ⟨r, _, hconv⟩
    unfold recordToTransaction at hconv
    cases hpd : parseDate r.date with
    | none => rw [hpd] at hconv; exact absurd hconv (by simp)
    | some d =>
      rw [hpd] at hconv
      cases hconv
      exact ⟨rfl, rfl, rfl⟩
  · exact applyResults_preserves_invariant results txs hres htxs

/-- Claim C9 witness: the single transaction extracted from `demoRecord` is
fully uncategorized. -/
theorem categorization_invariant_witness :
    demoExtractedTx.category = "" ∧ demoExtractedTx.subcategory = ""
    ∧ demoExtractedTx.confidence = 0 :=
  (categorization_invariant [demoRecord] "stmt.pdf" [] [] (by decide) (by simp)).1
    demoExtractedTx (by decide)

/-! ## Claim C10: extraction type mapping -/

/-- Claim C10: a parsed extraction record produces a `Credit` transaction
exactly when its JSON `type` field is the lowercase string `"credit"`; any
other value (including `"Credit"`, `"CREDIT"`, `"debit"`, `""`) yields
`Debit`, regardless of the amount's sign. -/
theorem extraction_type_mapping (src : String) (r : ExtractionRecord) (tx : Transaction)
    (h : recordToTransaction src r = some tx) :
    (tx.type = TransactionType.Credit ↔ r.type = "credit")
    ∧ (tx.type = TransactionType.Debit ↔ r.type ≠ "credit") := by
  unfold recordToTransaction at h
  cases hpd : parseDate r.date with
  | none => rw [hpd] at h; exact absurd h (by simp)
  | some d =>
    rw [hpd] at h
    cases h
    by_cases hc : r.type = "credit" <;> simp [hc]

/-- Claim C10 witness: the record whose type field is `"CREDIT"` (wrong case)
produces a `Debit` transaction even though its amount is positive. -/
theorem extraction_type_mapping_witness :
    (demoTxCREDIT.type = TransactionType.Credit ↔ demoRecordCREDIT.type = "credit")
    ∧ (demoTxCREDIT.type = TransactionType.Debit ↔ demoRecordCREDIT.type ≠ "credit") :=
  extraction_type_mapping "s" demoRecordCREDIT demoTxCREDIT (by decide)

/-! ## Claim C1: summary computation -/

/-- Claim C1 evaluation at the spec's example input
`[{amount:-50, type:debit, category:"Food"}, {amount:200, type:credit, category:""}]`:
the code sums the raw signed amounts of debit transactions into
`TotalExpenses`, so it computes `TotalExpenses = -50` (the claim says `50`)
and `NetAmount = TotalIncome - TotalExpenses = 200 - (-50) = 250` (the claim
says `150`); `TotalIncome = 200` and the category totals
(`"Food" ↦ -50`, uncategorized excluded) match the claim. -/
theorem summary_spec_example_eval :
    (calculateSummary specSummaryInput).totalIncome = 200
    ∧ (calculateSummary specSummaryInput).totalExpenses = -50
    ∧ (calculateSummary specSummaryInput).netAmount = 250
    ∧ (calculateSummary specSummaryInput).categoryTotals "Food" = -50
    ∧ (calculateSummary specSummaryInput).categoryTotals "" = 0 := by
  simp +decide only [specSummaryInput, calculateSummary, summaryStep, specTx1, specTx2,
    List.foldl_cons, List.foldl_nil]
  norm_num

/-! ## Claim C2: batch failure isolation in categorization -/

theorem categorizeLoop_success (oracle : Nat → BatchOutcome) (k : Nat) :
    ∀ (b : Nat) (txs : List Transaction),
      (∀ j, j < k → oracle (b + j) ≠ BatchOutcome.failure) →
      txs.length ≤ 30 * k →
      (categorizeLoop oracle b txs).2 = none := by
  induction k with
  | zero =>
    intro b txs _ hlen
    have : txs = [] := List.eq_nil_of_length_eq_zero (by omega)
    rw [this, categorizeLoop]
    simp
  | succ m ih =>
    intro b txs hsucc hlen
    rw [categorizeLoop]
    by_cases hnil : txs = []
    · simp [hnil]
    · rw [dif_neg hnil]
      cases horacle : oracle b with
      | failure => exact absurd horacle (by simpa using hsucc 0 (by omega))
      | success rs =>
        simp only
        refine ih (b + 1) (txs.drop 30) ?_ ?_
        · intro j hj
          have h2 := hsucc (j + 1) (by omega)
          have he : b + 1 + j = b + (j + 1) := by omega
          rw [he]
          exact h2
        · simp only [List.length_drop]
          omega

theorem categorizeLoop_fail (oracle : Nat → BatchOutcome) (k : Nat) :
    ∀ (b : Nat) (txs : List Transaction),
      (∀ j, j < k → oracle (b + j) ≠ BatchOutcome.failure) →
      oracle (b + k) = BatchOutcome.failure →
      30 * k < txs.length →
      categorizeLoop oracle b txs
        = ((categorizeLoop oracle b (txs.take (30 * k))).1 ++ txs.drop (30 * k),
           some (CatError.batchFailed (b + k + 1))) := by
  induction k with
  | zero =>
    intro b txs _ hfail hlen
    have hnil : txs ≠ [] := by
      intro hc; rw [hc] at hlen; simp at hlen
    have hb : oracle b = BatchOutcome.failure := by simpa using hfail
    have hempty : categorizeLoop oracle b [] = ([], none) := by
      rw [categorizeLoop]; simp
    rw [show 30 * 0 = 0 from rfl, List.take_zero, List.drop_zero, hempty]
    rw [categorizeLoop, dif_neg hnil, hb]
    simp
  | succ m ih =>
    intro b txs hsucc hfail hlen
    have hnil : txs ≠ [] := by
      intro hc; rw [hc] at hlen; simp at hlen
    have horacle : oracle b ≠ BatchOutcome.failure := by simpa using hsucc 0 (by omega)
    cases hb : oracle b with
    | failure => exact absurd hb horacle
    | success rs =>
      have hmain : categorizeLoop oracle b txs
          = (applyCategorizationResults rs (txs.take 30)
              ++ (categorizeLoop oracle (b + 1) (txs.drop 30)).1,
             (categorizeLoop oracle (b + 1) (txs.drop 30)).2) := by
        rw [categorizeLoop, dif_neg hnil, hb]
      have htake : txs.take (30 * (m + 1)) ≠ [] := by
        have hlen2 : (txs.take (30 * (m + 1))).length = 30 * (m + 1) := by
          rw [List.length_take]; omega
        intro hc
        rw [hc] at hlen2
        simp only [List.length_nil] at hlen2
        omega
      have htakeloop : categorizeLoop oracle b (txs.take (30 * (m + 1)))
          = (applyCategorizationResults rs ((txs.take (30 * (m + 1))).take 30)
              ++ (categorizeLoop oracle (b + 1) ((txs.take (30 * (m + 1))).drop 30)).1,
             (categorizeLoop oracle (b + 1) ((txs.take (30 * (m + 1))).drop 30)).2) := by
        rw [categorizeLoop, dif_neg htake, hb]
      have hsub1 : (txs.take (30 * (m + 1))).take 30 = txs.take 30 := by
        rw [List.take_take]
        congr 1 <;> omega
      have hsub2 : (txs.take (30 * (m + 1))).drop 30 = (txs.drop 30).take (30 * m) := by
        rw [List.drop_take]
        congr 1 <;> omega
      have hih : categorizeLoop oracle (b + 1) (txs.drop 30)
          = ((categorizeLoop oracle (b + 1) ((txs.drop 30).take (30 * m))).1
              ++ (txs.drop 30).drop (30 * m),
             some (CatError.batchFailed (b + 1 + m + 1))) := by
        refine ih (b + 1) (txs.drop 30) ?_ ?_ ?_
        · intro j hj
          have h2 := hsucc (j + 1) (by omega)
          have he : b + 1 + j = b + (j + 1) := by omega
          rw [he]
          exact h2
        · have he : b + 1 + m = b + (m + 1) := by omega
          rw [he]; exact hfail
        · simp only [List.length_drop]; omega
      rw [hmain, hih, htakeloop, hsub1, hsub2]
      simp only [List.drop_drop, List.append_assoc]
      have e1 : 30 + 30 * m = 30 * (m + 1) := by omega
      have e2 : b + 1 + m + 1 = b + (m + 1) + 1 := by omega
      rw [e1, e2]

/-- Claim C2 counterexample: with 31 transactions (two batches: indices 0-29
and 30) and an oracle that fails batch 0 but would succeed on batch 1
(categorizing its first transaction as "Banking"), `CategorizeTransactions`
returns the batch-0 error and leaves all 31 transactions uncategorized —
batch 1, which comes after the failing batch, is never processed, refuting
the claim that every other batch is still processed and categorized. -/
theorem batch_isolation_cex :
    (categorizeTransactions cexOracleC2 cexTxs31).2 = some (CatError.batchFailed 1)
    ∧ (categorizeTransactions cexOracleC2 cexTxs31).1.map Transaction.category
        = List.replicate 31 ""
    ∧ cexOracleC2 1 = BatchOutcome.success [⟨0, "Banking", "Fees", 1⟩]
    ∧ (applyCategorizationResults [⟨0, "Banking", "Fees", 1⟩] (cexTxs31.drop 30)).map
        Transaction.category = ["Banking"] := by
  have hnil : cexTxs31 ≠ [] := by decide
  have hcat : categorizeTransactions cexOracleC2 cexTxs31
      = categorizeLoop cexOracleC2 0 cexTxs31 := by
    rw [categorizeTransactions, if_neg hnil]
  have h := categorizeLoop_fail cexOracleC2 0 0 cexTxs31
    (fun j hj => absurd hj (Nat.not_lt_zero j)) (by decide) (by decide)
  have hempty : categorizeLoop cexOracleC2 0 [] = ([], none) := by
    rw [categorizeLoop]; simp
  rw [show (30 : Nat) * 0 = 0 from rfl, List.take_zero, List.drop_zero, hempty] at h
  refine ⟨?_, ?_, by decide, by decide⟩
  · rw [hcat, h]
  · rw [hcat, h]
    decide

/-- Claim C2 (amended): a failure of batch `k` (the first failure) aborts the
whole categorization run at that batch: the error `batch k+1 failed` is
surfaced to the caller, batches before `k` are fully processed exactly as if
the list had ended there (with no error), and the failing batch together
with every batch after it is left completely untouched. -/
theorem batch_failure_aborts (oracle : Nat → BatchOutcome) (txs : List Transaction)
    (k : Nat)
    (hsucc : ∀ j, j < k → oracle j ≠ BatchOutcome.failure)
    (hfail : oracle k = BatchOutcome.failure)
    (hk : 30 * k < txs.length) :
    (categorizeTransactions oracle txs).2 = some (CatError.batchFailed (k + 1))
    ∧ (categorizeTransactions oracle txs).1
        = (categorizeTransactions oracle (txs.take (30 * k))).1 ++ txs.drop (30 * k)
    ∧ (categorizeTransactions oracle (txs.take (30 * k))).2 = none := by
  have hnil : txs ≠ [] := by
    intro hc; rw [hc] at hk; simp at hk
  have hloop := categorizeLoop_fail oracle k 0 txs (by simpa using hsucc) (by simpa using hfail) hk
  have hcat : categorizeTransactions oracle txs = categorizeLoop oracle 0 txs := by
    rw [categorizeTransactions, if_neg hnil]
  rcases Nat.eq_zero_or_pos k with hk0 | hkpos
  · subst hk0
    have hcat2 : categorizeTransactions oracle (txs.take (30 * 0)) = ([], none) := by
      rw [show (30 : Nat) * 0 = 0 from rfl, List.take_zero, categorizeTransactions, if_pos rfl]
    have hempty : categorizeLoop oracle 0 [] = ([], none) := by
      rw [categorizeLoop]; simp
    rw [show (30 : Nat) * 0 = 0 from rfl, List.take_zero, List.drop_zero] at hloop ⊢
    rw [hempty] at hloop
    rw [show (30 : Nat) * 0 = 0 from rfl, List.take_zero] at hcat2
    refine ⟨?_, ?_, ?_⟩
    · rw [hcat, hloop]
    · rw [hcat, hloop, hcat2]
    · rw [hcat2]
  · have htnil : txs.take (30 * k) ≠ [] := by
      intro hc
      have h2 := congrArg List.length hc
      simp only [List.length_take, List.length_nil] at h2
      rcases Nat.min_eq_zero_iff.mp h2 with h3 | h3 <;> omega
    have hcat2 : categorizeTransactions oracle (txs.take (30 * k))
        = categorizeLoop oracle 0 (txs.take (30 * k)) := by
      rw [categorizeTransactions, if_neg htnil]
    refine ⟨?_, ?_, ?_⟩
    · rw [hcat, hloop]; simp
    · rw [hcat, hloop, hcat2]
    · rw [hcat2]
      refine categorizeLoop_success oracle k 0 (txs.take (30 * k)) (by simpa using hsucc) ?_
      rw [List.length_take]
      exact Nat.min_le_left _ _

/-- Claim C2 witness: 31 transactions, batch 0 succeeding, batch 1 failing:
the run reports `batch 2 failed`, the result is batch 0's categorized form
followed by the untouched batch 1, and the 30-transaction run alone would
finish without error. -/
theorem batch_failure_aborts_witness :
    (categorizeTransactions witOracleC2 cexTxs31).2 = some (CatError.batchFailed 2)
    ∧ (categorizeTransactions witOracleC2 cexTxs31).1
        = (categorizeTransactions witOracleC2 (cexTxs31.take 30)).1 ++ cexTxs31.drop 30
    ∧ (categorizeTransactions witOracleC2 (cexTxs31.take 30)).2 = none := by
  have h := batch_failure_aborts witOracleC2 cexTxs31 1
    (by
      intro j hj
      have hj0 : j = 0 := by omega
      subst hj0
      decide)
    (by decide) (by decide)
  rw [show (30 : Nat) * 1 = 30 from rfl] at h
  exact ⟨h.1, h.2.1, h.2.2⟩

/-! ## Claim C3: chunk failure isolation in extraction -/

theorem extractChunksLoop_error (oracle : List Char → ChunkOutcome) (pre : List (List Char)) :
    ∀ (c : List Char) (post : List (List Char)) (e : ExtractError),
      (∀ p ∈ pre, ∃ txs, extractFromChunkRecursive oracle p 0 = Except.ok txs) →
      extractFromChunkRecursive oracle c 0 = Except.error e →
      extractChunksLoop oracle (pre ++ c :: post) = Except.error e := by
  induction pre with
  | nil =>
    intro c post e _ hc
    simp only [List.nil_append, extractChunksLoop, hc]
  | cons p ps ih =>
    intro c post e hpre hc
    rcases hpre p (List.mem_cons_self p ps) with ⟨txs, hp⟩
    have hrest := ih c post e (fun q hq => hpre q (List.mem_cons_of_mem p hq)) hc
    have hrest2 : extractChunksLoop oracle (ps.append (c :: post)) = Except.error e := hrest
    simp only [List.cons_append, extractChunksLoop, hp, hrest, hrest2]

theorem bisection_keeps_left (oracle : List Char → ChunkOutcome) (chunk : List Char)
    (depth : Nat) (ltx : List Transaction) (e2 : ExtractError)
    (hor : oracle chunk = ChunkOutcome.parseError)
    (hbig : 6000 < chunk.length)
    (hdepth : depth ≤ 3)
    (hleft : extractFromChunkRecursive oracle (chunk.take (chunk.length / 2)) (depth + 1)
      = Except.ok ltx)
    (hright : extractFromChunkRecursive oracle (chunk.drop (chunk.length / 2)) (depth + 1)
      = Except.error e2)
    (hne : ltx ≠ []) :
    extractFromChunkRecursive oracle chunk depth = Except.ok ltx := by
  unfold extractFromChunkRecursive at hleft hright ⊢
  have h5 : 4 - (depth + 1) = 3 - depth := by omega
  rw [h5] at hleft hright
  rw [show (4 : Nat) - depth = (3 - depth) + 1 from by omega]
  have hnlt : ¬3 < depth := by omega
  rw [extractFromChunkRecursiveAux]
  simp [hnlt, hor, hbig, hleft, hright, hne, Except.toOption]

/-- Claim C3 (amended): a chunk whose extraction still fails after bisection
is not isolated — `ExtractTransactionsFromText` returns that chunk's error
and discards the transactions of every other chunk (the ones already
extracted included).  What does hold within a single chunk: bisection keeps
the partial result of a succeeding half while the failing half contributes
nothing. -/
theorem chunk_failure_aborts (oracle : List Char → ChunkOutcome) (text : List Char)
    (chunkSize : Nat) (pre : List (List Char)) (c : List Char) (post : List (List Char))
    (e : ExtractError)
    (hsplit : splitTextForExtraction text chunkSize = pre ++ c :: post)
    (hpre : ∀ p ∈ pre, ∃ txs, extractFromChunkRecursive oracle p 0 = Except.ok txs)
    (hc : extractFromChunkRecursive oracle c 0 = Except.error e) :
    extractTransactionsFromText oracle text chunkSize = Except.error e
    ∧ (∀ (chunk : List Char) (depth : Nat) (ltx : List Transaction) (e2 : ExtractError),
        oracle chunk = ChunkOutcome.parseError → 6000 < chunk.length → depth ≤ 3 →
        extractFromChunkRecursive oracle (chunk.take (chunk.length / 2)) (depth + 1)
          = Except.ok ltx →
        extractFromChunkRecursive oracle (chunk.drop (chunk.length / 2)) (depth + 1)
          = Except.error e2 →
        ltx ≠ [] →
        extractFromChunkRecursive oracle chunk depth = Except.ok ltx) := by
  constructor
  · rw [extractTransactionsFromText, hsplit]
    exact extractChunksLoop_error oracle pre c post e hpre hc
  · intro chunk depth ltx e2 h1 h2 h3 h4 h5 h6
    exact bisection_keeps_left oracle chunk depth ltx e2 h1 h2 h3 h4 h5 h6

theorem dropWhile_eq_self_of (p : Char → Bool) (s : List Char)
    (h : ∀ c ∈ s, p c = false) : s.dropWhile p = s := by
  cases s with
  | nil => rfl
  | cons c r =>
    rw [List.dropWhile_cons, h c (List.mem_cons_self c r)]
    simp

theorem trimSpace_eq_self (s : List Char) (h : ∀ c ∈ s, isSpaceGo c = false) :
    trimSpace s = s := by
  unfold trimSpace
  rw [dropWhile_eq_self_of isSpaceGo s h,
    dropWhile_eq_self_of isSpaceGo s.reverse (fun c hc => h c (List.mem_reverse.mp hc)),
    List.reverse_reverse]

theorem pageBoundaryLine_false (s : List Char) (h : ∀ c ∈ s, isSpaceGo c = false)
    (h2 : s.head? ≠ some '-') : pageBoundaryLine s = false := by
  unfold pageBoundaryLine
  rw [trimSpace_eq_self s h]
  cases s with
  | nil => decide
  | cons c r =>
    have hc : c ≠ '-' := by
      intro hcc
      exact h2 (by rw [hcc]; rfl)
    rw [show ("--- Page ".toList) = '-' :: "-- Page ".toList from rfl]
    simp only [List.isPrefixOf]
    rw [show (('-' : Char) == c) = false from by simpa using fun hcc => hc hcc.symm]
    simp

theorem splitLines_no_newline (s : List Char) (h : ∀ c ∈ s, ¬c = '\n') :
    splitLines s = [s] := by
  induction s with
  | nil => rfl
  | cons c r ih =>
    rw [splitLines, ih (fun d hd => h d (List.mem_cons_of_mem c hd))]
    simp [h c (List.mem_cons_self c r)]

/-- Chunking of a 2002-character two-block text at chunk size 1001, computed
through the chunker's stages. -/
theorem splitTwoBlocks (A B : List Char)
    (hA : A.length = 1001) (hB : B.length = 1001)
    (hno : ∀ c ∈ A ++ B, ¬c = '\n')
    (hsp : ∀ c ∈ A ++ B, isSpaceGo c = false)
    (hhead : (A ++ B).head? ≠ some '-') :
    splitTextForExtraction (A ++ B) 1001 = [A, B] := by
  have hlen : (A ++ B).length = 2002 := by
    rw [List.length_append, hA, hB]
  have hsl : splitLines (A ++ B) = [A ++ B] := splitLines_no_newline _ hno
  have hpb : pageBoundaryLine (A ++ B) = false := pageBoundaryLine_false _ hsp hhead
  have htake : (A ++ B).take 1001 = A := List.take_left' hA
  have hdrop : (A ++ B).drop 1001 = B := List.drop_left' hA
  have hstep : chunkStep 1001 (ChunkState.mk [] []) (A ++ B) = ChunkState.mk [] (A ++ B) := by
    rw [chunkStep, if_neg (by simp [hpb])]
    simp
  have hsoft : softChunks 1001 [A ++ B] = [A ++ B] := by
    rw [softChunks, List.foldl_cons, List.foldl_nil, hstep]
    rw [if_pos (by simp [hlen])]
    simp
  have hhard : hardSplit 1001 (A ++ B) = [A, B] := by
    rw [hardSplit, hlen]
    rw [show (2002 : Nat) = 2001 + 1 from rfl, hardSplitAux]
    rw [if_neg (by simp [hlen]), htake, hdrop]
    rw [show (2001 : Nat) = 2000 + 1 from rfl, hardSplitAux]
    rw [if_pos (Or.inl (by rw [hB]))]
  rw [splitTextForExtraction, if_neg (by rw [hlen]; omega), hsl, hsoft,
    List.map_cons, List.map_nil, hhard]
  rfl

theorem extract_chunk_parseError_small (oracle : List Char → ChunkOutcome)
    (chunk : List Char) (h1 : oracle chunk = ChunkOutcome.parseError)
    (h2 : chunk.length ≤ 6000) :
    extractFromChunkRecursive oracle chunk 0 = Except.error ExtractError.parseFailed := by
  rw [extractFromChunkRecursive, show (4 : Nat) - 0 = 3 + 1 from rfl, extractFromChunkRecursiveAux]
  rw [if_neg (by omega)]
  simp only [h1]
  rw [if_neg (by omega)]

theorem extract_chunk_parsed (oracle : List Char → ChunkOutcome)
    (chunk : List Char) (txs : List Transaction)
    (h1 : oracle chunk = ChunkOutcome.parsed txs) :
    extractFromChunkRecursive oracle chunk 0 = Except.ok txs := by
  rw [extractFromChunkRecursive, show (4 : Nat) - 0 = 3 + 1 from rfl, extractFromChunkRecursiveAux]
  rw [if_neg (by omega)]
  simp only [h1]

theorem headI_replicate_1001 (c : Char) : (List.replicate 1001 c).headI = c := by
  rw [show (1001 : Nat) = 1000 + 1 from rfl, List.replicate_succ, List.headI_cons]

theorem cexOracle_on_a : cexOracleC3 (List.replicate 1001 'a') = ChunkOutcome.parseError := by
  rw [cexOracleC3, headI_replicate_1001]
  rw [if_neg (by decide)]

theorem cexOracle_on_b :
    cexOracleC3 (List.replicate 1001 'b') = ChunkOutcome.parsed [blankTx] := by
  rw [cexOracleC3, headI_replicate_1001]
  rw [if_pos rfl]

theorem extract_chunk_a :
    extractFromChunkRecursive cexOracleC3 (List.replicate 1001 'a') 0
      = Except.error ExtractError.parseFailed :=
  extract_chunk_parseError_small cexOracleC3 (List.replicate 1001 'a') cexOracle_on_a
    (by rw [List.length_replicate]; omega)

theorem extract_chunk_b :
    extractFromChunkRecursive cexOracleC3 (List.replicate 1001 'b') 0
      = Except.ok [blankTx] :=
  extract_chunk_parsed cexOracleC3 (List.replicate 1001 'b') [blankTx] cexOracle_on_b

theorem replicate_blocks_side (x y : Char)
    (hx : isSpaceGo x = false) (hy : isSpaceGo y = false)
    (hxd : x ≠ '-') (hxn : ¬x = '\n') (hyn : ¬y = '\n') :
    splitTextForExtraction (List.replicate 1001 x ++ List.replicate 1001 y) 1001
      = [List.replicate 1001 x, List.replicate 1001 y] := by
  refine splitTwoBlocks (List.replicate 1001 x) (List.replicate 1001 y)
    (by rw [List.length_replicate]) (by rw [List.length_replicate]) ?_ ?_ ?_
  · intro c hc
    rcases List.mem_append.mp hc with hca | hcb
    · rw [List.eq_of_mem_replicate hca]; exact hxn
    · rw [List.eq_of_mem_replicate hcb]; exact hyn
  · intro c hc
    rcases List.mem_append.mp hc with hca | hcb
    · rw [List.eq_of_mem_replicate hca]; exact hx
    · rw [List.eq_of_mem_replicate hcb]; exact hy
  · rw [show (1001 : Nat) = 1000 + 1 from rfl, List.replicate_succ, List.cons_append,
      List.head?_cons]
    intro hcontra
    rw [Option.some_inj] at hcontra
    exact hxd hcontra

/-- Claim C3 counterexample: a 2002-character statement splits (chunk size
1001) into an `a`-chunk then a `b`-chunk; the oracle fails to parse the
`a`-chunk (too small to bisect) and parses the `b`-chunk to one transaction.
`ExtractTransactionsFromText` returns the parse failure and no transactions,
even though the second chunk on its own extracts successfully — refuting the
claim that the remaining chunks are still processed and their transactions
returned. -/
theorem chunk_isolation_cex :
    extractTransactionsFromText cexOracleC3 cexTextC3 1001
      = Except.error ExtractError.parseFailed
    ∧ extractFromChunkRecursive cexOracleC3 (List.replicate 1001 'b') 0
      = Except.ok [blankTx] := by
  refine ⟨?_, extract_chunk_b⟩
  rw [extractTransactionsFromText, cexTextC3,
    replicate_blocks_side 'a' 'b' (by decide) (by decide) (by decide) (by decide) (by decide)]
  simp only [extractChunksLoop, extract_chunk_a]

/-- Claim C3 witness: the succeeding `b`-chunk comes first; the failure of
the second chunk still aborts the whole document and discards the first
chunk's transactions. -/
theorem chunk_failure_aborts_witness :
    extractTransactionsFromText cexOracleC3 witTextC3 1001
      = Except.error ExtractError.parseFailed :=
  (chunk_failure_aborts cexOracleC3 witTextC3 1001 [List.replicate 1001 'b']
    (List.replicate 1001 'a') [] ExtractError.parseFailed
    (by
      rw [witTextC3]
      exact replicate_blocks_side 'b' 'a' (by decide) (by decide) (by decide) (by decide)
        (by decide))
    (by
      intro p hp
      have hp2 : p = List.replicate 1001 'b' := List.mem_singleton.mp hp
      subst hp2
      exact ⟨[blankTx], extract_chunk_b⟩)
    extract_chunk_a).1

/-! ## Claim C5: chunker contract -/

theorem joinTail_append (xs ys : List (List Char)) :
    joinTail (xs ++ ys) = joinTail xs ++ joinTail ys := by
  simp [joinTail]

theorem joinLines_append_last (A : List (List Char)) (x y : List Char) :
    joinLines (A ++ [x ++ y]) = joinLines (A ++ [x]) ++ y := by
  cases A with
  | nil => simp [joinLines, joinTail]
  | cons a as => simp [joinLines, joinTail_append, joinTail, List.append_assoc]

theorem joinLines_append_one (A : List (List Char)) (l : List Char) (h : A ≠ []) :
    joinLines (A ++ [l]) = joinLines A ++ '\n' :: l := by
  cases A with
  | nil => exact absurd rfl h
  | cons a as => simp [joinLines, joinTail_append, joinTail]

theorem splitLines_ne_nil (s : List Char) : splitLines s ≠ [] := by
  cases s with
  | nil => simp [splitLines]
  | cons c rest =>
    rw [splitLines]
    cases splitLines rest with
    | nil => simp
    | cons l ls => by_cases hc : c = '\n' <;> simp [hc]

theorem joinLines_splitLines (s : List Char) : joinLines (splitLines s) = s := by
  induction s with
  | nil => rfl
  | cons c r ih =>
    cases h : splitLines r with
    | nil => exact absurd h (splitLines_ne_nil r)
    | cons l ls =>
      rw [h] at ih
      by_cases hc : c = '\n'
      · subst hc
        rw [show splitLines ('\n' :: r) = [] :: l :: ls from by rw [splitLines, h]; simp]
        simpa [joinLines, joinTail] using ih
      · rw [show splitLines (c :: r) = (c :: l) :: ls from by rw [splitLines, h]; simp [hc]]
        simpa [joinLines, joinTail] using ih

theorem pageBoundary_ne_nil (l : List Char) (h : pageBoundaryLine l = true) : l ≠ [] := by
  intro hc
  subst hc
  rw [show pageBoundaryLine [] = false from by decide] at h
  exact Bool.false_ne_true h

theorem chunkStep_inv (cs : Nat) (st : ChunkState) (l : List Char) (h : st.current ≠ []) :
    (chunkStep cs st l).current ≠ []
    ∧ joinLines ((chunkStep cs st l).chunks ++ [(chunkStep cs st l).current])
        = joinLines (st.chunks ++ [st.current]) ++ '\n' :: l := by
  rw [chunkStep]
  by_cases hf : cs < st.current.length + l.length + 1 ∧ pageBoundaryLine l = true
  · rw [if_pos hf]
    exact ⟨pageBoundary_ne_nil l hf.2,
      joinLines_append_one (st.chunks ++ [st.current]) l (by simp)⟩
  · rw [if_neg hf, if_pos (List.length_pos.mpr h)]
    exact ⟨by simp, joinLines_append_last st.chunks st.current ('\n' :: l)⟩

theorem chunkFold_inv (cs : Nat) (lines : List (List Char)) :
    ∀ st : ChunkState, st.current ≠ [] →
      (lines.foldl (chunkStep cs) st).current ≠ []
      ∧ joinLines ((lines.foldl (chunkStep cs) st).chunks
            ++ [(lines.foldl (chunkStep cs) st).current])
          = joinLines (st.chunks ++ [st.current]) ++ joinTail lines := by
  induction lines with
  | nil =>
    intro st h
    exact ⟨h, by simp [joinTail]⟩
  | cons l ls ih =>
    intro st h
    rw [List.foldl_cons]
    rcases chunkStep_inv cs st l h with ⟨h1, h2⟩
    rcases ih (chunkStep cs st l) h1 with ⟨h3, h4⟩
    refine ⟨h3, ?_⟩
    rw [h4, h2]
    simp [joinTail, List.append_assoc]

theorem softChunks_join (cs : Nat) (text : List Char)
    (h1 : (splitLines text).headI ≠ [])
    (h2 : ¬(cs < (splitLines text).headI.length + 1
        ∧ pageBoundaryLine (splitLines text).headI = true)) :
    joinLines (softChunks cs (splitLines text)) = text := by
  have hjoin := joinLines_splitLines text
  cases hsl : splitLines text with
  | nil => exact absurd hsl (splitLines_ne_nil text)
  | cons l0 ls =>
    rw [hsl] at h1 h2 hjoin
    simp only [List.headI_cons] at h1 h2
    rw [softChunks, List.foldl_cons]
    have hstep0 : chunkStep cs (ChunkState.mk [] []) l0 = ChunkState.mk [] l0 := by
      rw [chunkStep, if_neg (by simpa using h2), if_neg (by simp)]
      simp
    rw [hstep0]
    rcases chunkFold_inv cs ls (ChunkState.mk [] l0) h1 with ⟨h3, h4⟩
    rw [if_pos (List.length_pos.mpr h3), h4]
    simpa [joinLines, joinTail] using hjoin

theorem hardSplitAux_flatten (cs : Nat) :
    ∀ (fuel : Nat) (c : List Char), c.length ≤ fuel →
      (hardSplitAux cs fuel c).flatten = c := by
  intro fuel
  induction fuel with
  | zero => intro c _; simp [hardSplitAux]
  | succ f ih =>
    intro c hc
    rw [hardSplitAux]
    split
    · simp
    · next hcond =>
      rw [List.flatten_cons, ih (c.drop cs) (by simp; omega)]
      exact List.take_append_drop cs c

theorem hardSplitAux_le (cs : Nat) (hcs : 0 < cs) :
    ∀ (fuel : Nat) (c : List Char), c.length ≤ fuel →
      ∀ p ∈ hardSplitAux cs fuel c, p.length ≤ cs := by
  intro fuel
  induction fuel with
  | zero =>
    intro c hc p hp
    rw [hardSplitAux, List.mem_singleton] at hp
    subst hp
    omega
  | succ f ih =>
    intro c hc p hp
    rw [hardSplitAux] at hp
    split at hp
    · next hcond =>
      rw [List.mem_singleton] at hp
      subst hp
      rcases hcond with hcond | hcond
      · exact hcond
      · omega
    · next hcond =>
      rcases List.mem_cons.mp hp with hp1 | hp2
      · subst hp1
        simp
      · exact ih (c.drop cs) (by simp; omega) p hp2

theorem hardSplit_flatten (cs : Nat) (c : List Char) : (hardSplit cs c).flatten = c :=
  hardSplitAux_flatten cs c.length c le_rfl

theorem hardSplit_le (cs : Nat) (hcs : 0 < cs) (c : List Char) :
    ∀ p ∈ hardSplit cs c, p.length ≤ cs :=
  hardSplitAux_le cs hcs c.length c le_rfl

theorem chunker_sizes (text : List Char) (cs : Nat) (hcs : 0 < cs) :
    ∀ c ∈ splitTextForExtraction text cs, c.length ≤ cs := by
  intro c hc
  rw [splitTextForExtraction] at hc
  split at hc
  · next hle =>
    rw [List.mem_singleton] at hc
    subst hc
    exact hle
  · rcases List.mem_flatten.mp hc with ⟨l, hl, hcl⟩
    rcases List.mem_map.mp hl with ⟨ch, _, rfl⟩
    exact hardSplit_le cs hcs ch c hcl

/-- Claim C5 (amended): (i) a text no longer than the chunk size is returned
as the single chunk; (iii) after hard-splitting every returned chunk (not
just all but the last) has length at most `chunkSize`; and concatenating the
hard-split slices of any chunk reproduces that chunk.  Part (ii) of the
claim — lossless recombination — only holds conditionally: provided the
first line of the text is non-empty and does not itself trigger a
page-boundary flush, joining the pre-hard-split chunks with single newlines
reproduces the text exactly.  Texts whose first line is empty lose their
leading newlines, and texts consisting only of empty lines are dropped
entirely (see the counterexample), so the unconditional claim fails. -/
theorem chunker_contract (text : List Char) (chunkSize : Nat) (hcs : 0 < chunkSize) :
    (text.length ≤ chunkSize → splitTextForExtraction text chunkSize = [text])
    ∧ ((splitLines text).headI ≠ [] →
        ¬(chunkSize < (splitLines text).headI.length + 1
            ∧ pageBoundaryLine (splitLines text).headI = true) →
        joinLines (softChunks chunkSize (splitLines text)) = text)
    ∧ (∀ c ∈ splitTextForExtraction text chunkSize, c.length ≤ chunkSize)
    ∧ (∀ c : List Char, (hardSplit chunkSize c).flatten = c) :=
  ⟨fun h => by rw [splitTextForExtraction, if_pos h],
   fun h1 h2 => softChunks_join chunkSize text h1 h2,
   chunker_sizes text chunkSize hcs,
   fun c => hardSplit_flatten chunkSize c⟩

/-- Claim C5 counterexample: the chunker is not lossless.  For the text
`"\nab"` and chunk size 2 the returned chunks are exactly `["ab"]`: the
leading newline is consumed while building the single (only) chunk — there
is no split boundary at which it could be reinserted, and the concatenation
of all returned chunks cannot reproduce the input.  The same loss occurs at
any chunk size for a text of a newline followed by `chunkSize` characters. -/
theorem chunker_contract_cex :
    splitTextForExtraction ['\n', 'a', 'b'] 2 = [['a', 'b']]
    ∧ (splitTextForExtraction ['\n', 'a', 'b'] 2).flatten ≠ ['\n', 'a', 'b'] := by
  constructor <;> decide

/-- Claim C5 witness: a text with a page-boundary marker, chunk size 10.
The soft chunks are `["abcdef", "--- Page 2\nxyz"]` and joining them with
newlines reproduces the text. -/
theorem chunker_contract_witness :
    joinLines (softChunks 10 (splitLines demoChunkText)) = demoChunkText :=
  (chunker_contract demoChunkText 10 (by decide)).2.1 (by decide) (by decide)

/-! ## Claim C6: response-parser tiered fallback -/

/-- Claim C6: the JSON-recovery stage used by extraction parsing.  A reply
wrapping a JSON array in a fenced block yields that array (here the direct
quote-aware scan already finds it); a reply of bare top-level objects with
no array fails direct extraction and yields the synthesized, validated array
of the objects joined by commas; a reply with no recoverable JSON fails with
the no-JSON-found error. -/
theorem response_parser_examples :
    recoverJSONArray exFenced = Except.ok arrA1
    ∧ extractJSONFromResponse exObjects = Except.error ParseErr.noJSONFound
    ∧ recoverJSONArray exObjects = Except.ok arrA1B2
    ∧ recoverJSONArray exNoJSON = Except.error ParseErr.noJSONFound := by
  refine ⟨?_, ?_, ?_, ?_⟩ <;> decide

/-! ## Claim C7: quote-aware array scanning -/

theorem findAux_string_run (inner : List Char)
    (h : ∀ c ∈ inner, c ≠ '"' ∧ c ≠ '\\') :
    ∀ (rest : List Char) (depth : Nat) (acc : Option (List Char)),
      findJSONArrayAux (inner ++ rest) true false depth acc
        = findJSONArrayAux rest true false depth (acc.map (fun a => inner.reverse ++ a)) := by
  induction inner with
  | nil =>
    intro rest depth acc
    simp only [List.nil_append, List.reverse_nil]
    congr 1
    cases acc <;> simp
  | cons c cs ih =>
    intro rest depth acc
    rcases h c (List.mem_cons_self c cs) with ⟨h1, h2⟩
    rw [List.cons_append, findJSONArrayAux.eq_def]
    simp only [if_true, if_neg h2, if_neg h1]
    rw [ih (fun d hd => h d (List.mem_cons_of_mem c hd)) rest depth (pushSpan c acc)]
    congr 1
    cases acc <;> simp [pushSpan, List.append_assoc]

/-- Claim C7: the array scanner tracks quote-string state, so bracket
characters inside a string literal never open or close an array span: for
every string-literal body (no quote, no backslash — escapes would extend the
literal) and every trailing text, scanning `["<body>"]<trailing>` returns
the full bracketed span `["<body>"]`, terminating at its closing bracket. -/
theorem quote_aware_array_scan (inner rest : List Char)
    (h : ∀ c ∈ inner, c ≠ '"' ∧ c ≠ '\\') :
    findJSONArray ('[' :: '"' :: inner ++ '"' :: ']' :: rest)
      = some ('[' :: '"' :: (inner ++ ['"', ']'])) := by
  have step1 : findJSONArray ('[' :: '"' :: inner ++ '"' :: ']' :: rest)
      = findJSONArrayAux ('"' :: inner ++ '"' :: ']' :: rest) false false 1 (some ['[']) := rfl
  have step2 : findJSONArrayAux ('"' :: inner ++ '"' :: ']' :: rest) false false 1 (some ['['])
      = findJSONArrayAux (inner ++ '"' :: ']' :: rest) true false 1 (some ['"', '[']) := rfl
  have step3 := findAux_string_run inner h ('"' :: ']' :: rest) 1 (some ['"', '['])
  have step4 : findJSONArrayAux ('"' :: ']' :: rest) true false 1
        (some (inner.reverse ++ ['"', '[']))
      = findJSONArrayAux (']' :: rest) false false 1
        (some ('"' :: (inner.reverse ++ ['"', '[']))) := rfl
  have step5 : findJSONArrayAux (']' :: rest) false false 1
        (some ('"' :: (inner.reverse ++ ['"', '['])))
      = some ((']' :: '"' :: (inner.reverse ++ ['"', '['])).reverse) := rfl
  rw [step1, step2, step3,
    show ((some ['"', '[']).map (fun a => inner.reverse ++ a))
      = some (inner.reverse ++ ['"', '[']) from rfl,
    step4, step5]
  simp [List.reverse_append, List.append_assoc]

/-- Claim C7 witness: the spec's example — the string literal contains a `]`
and the scanner still returns the full array. -/
theorem quote_aware_array_scan_witness :
    findJSONArray ('[' :: '"' :: bracketInner ++ ['"', ']'])
      = some ('[' :: '"' :: (bracketInner ++ ['"', ']'])) :=
  quote_aware_array_scan bracketInner [] (by decide)

/-! ## Claim C8: LLM client retry/backoff -/

theorem attemptLoop_calls_pos (oracle : Nat → APIOutcome) (attempt : Nat) :
    1 ≤ (attemptLoop oracle attempt).calls := by
  by_cases hge : 3 ≤ attempt
  · rw [attemptLoop, dif_pos hge]
    rcases h : oracle attempt with _ | _ | code <;> simp only [h] <;> (try split) <;>
      exact Nat.le_refl 1
  · rw [attemptLoop, dif_neg hge]
    rcases h : oracle attempt with _ | _ | code <;> simp only [h]
    · exact Nat.le_add_left 1 _
    · exact Nat.le_refl 1
    · split
      · exact Nat.le_refl 1
      · split
        · exact Nat.le_add_left 1 _
        · exact Nat.le_refl 1

theorem attemptLoop_calls_le_aux (oracle : Nat → APIOutcome) :
    ∀ (n attempt : Nat), 4 - attempt ≤ n + 1 →
      (attemptLoop oracle attempt).calls ≤ n + 1 := by
  intro n
  induction n with
  | zero =>
    intro attempt hle
    rw [attemptLoop, dif_pos (by omega)]
    rcases h : oracle attempt with _ | _ | code <;> simp only [h] <;> (try split) <;>
      exact Nat.le_refl 1
  | succ m ih =>
    intro attempt hle
    by_cases hge : 3 ≤ attempt
    · rw [attemptLoop, dif_pos hge]
      rcases h : oracle attempt with _ | _ | code <;> simp only [h] <;> (try split) <;>
        exact Nat.le_add_left 1 _
    · rw [attemptLoop, dif_neg hge]
      rcases h : oracle attempt with _ | _ | code <;> simp only [h]
      · exact Nat.succ_le_succ (ih (attempt + 1) (by omega))
      · exact Nat.le_add_left 1 _
      · split
        · exact Nat.le_add_left 1 _
        · split
          · exact Nat.succ_le_succ (ih (attempt + 1) (by omega))
          · exact Nat.le_add_left 1 _

theorem backoff_cons_eq (oracle : Nat → APIOutcome) (attempt : Nat)
    (hrec : (attemptLoop oracle (attempt + 1)).backoffsSeconds
      = (List.range ((attemptLoop oracle (attempt + 1)).calls - 1)).map
          (fun i => (attempt + 1 + i) * 2)) :
    attempt * 2 :: (attemptLoop oracle (attempt + 1)).backoffsSeconds
      = (List.range ((attemptLoop oracle (attempt + 1)).calls + 1 - 1)).map
          (fun i => (attempt + i) * 2) := by
  have hpos := attemptLoop_calls_pos oracle (attempt + 1)
  rcases Nat.exists_eq_add_of_le hpos with ⟨m2, hm2⟩
  rw [hrec, hm2]
  rw [show 1 + m2 - 1 = m2 from by omega, show 1 + m2 + 1 - 1 = m2 + 1 from by omega,
    List.range_succ_eq_map, List.map_cons, List.map_map]
  rw [List.cons_eq_cons]
  constructor
  · omega
  · refine List.map_congr_left (fun i _ => ?_)
    simp only [Function.comp_apply]
    omega

theorem attemptLoop_backoffs (oracle : Nat → APIOutcome) :
    ∀ (n attempt : Nat), 4 - attempt ≤ n + 1 →
      (attemptLoop oracle attempt).backoffsSeconds
        = (List.range ((attemptLoop oracle attempt).calls - 1)).map
            (fun i => (attempt + i) * 2) := by
  intro n
  induction n with
  | zero =>
    intro attempt hle
    rw [attemptLoop, dif_pos (by omega)]
    rcases h : oracle attempt with _ | _ | code <;> simp only [h] <;> (try split) <;> simp
  | succ m ih =>
    intro attempt hle
    by_cases hge : 3 ≤ attempt
    · rw [attemptLoop, dif_pos hge]
      rcases h : oracle attempt with _ | _ | code <;> simp only [h] <;> (try split) <;> simp
    · rw [attemptLoop, dif_neg hge]
      rcases h : oracle attempt with _ | _ | code <;> simp only [h]
      · exact backoff_cons_eq oracle attempt (ih (attempt + 1) (by omega))
      · simp
      · split
        · simp
        · split
          · exact backoff_cons_eq oracle attempt (ih (attempt + 1) (by omega))
          · simp

/-- Claim C8: the retry loop of `callClaudeAPI`.  (1) With a transport
returning HTTP 500 twice then 200, the client succeeds on the third attempt
with exactly 3 HTTP calls and backoffs of 2 then 4 seconds.  (2) Every call
makes at most 3 HTTP requests.  (3) Any HTTP status other than 200, 429 and
5xx fails immediately: exactly one request from that attempt on, no backoff.
(4) The backoff before retry `i` (counting the first attempt as `attempt`)
is `(attempt + i) * 2` seconds — attempt index times the fixed 2-second
base. -/
theorem retry_backoff_contract :
    attemptLoop oracle500 1 = ⟨Except.ok (), 3, [2, 4]⟩
    ∧ (∀ (maxR reqM : Nat) (oracle : Nat → APIOutcome),
        (callClaudeAPI maxR reqM oracle).calls ≤ 3)
    ∧ (∀ (oracle : Nat → APIOutcome) (attempt c : Nat),
        oracle attempt = APIOutcome.httpStatus c → c ≠ 200 → c ≠ 429 → c < 500 →
        attemptLoop oracle attempt = ⟨Except.error (APIError.httpFail c), 1, []⟩)
    ∧ (∀ (oracle : Nat → APIOutcome) (attempt : Nat),
        (attemptLoop oracle attempt).backoffsSeconds
          = (List.range ((attemptLoop oracle attempt).calls - 1)).map
              (fun i => (attempt + i) * 2)) := by
  refine ⟨?_, ?_, ?_, ?_⟩
  · have h3 : attemptLoop oracle500 3 = ⟨Except.ok (), 1, []⟩ := by
      rw [attemptLoop, dif_pos (by omega)]
      simp [show oracle500 3 = APIOutcome.httpStatus 200 from rfl]
    have h2 : attemptLoop oracle500 2 = ⟨Except.ok (), 2, [4]⟩ := by
      rw [attemptLoop, dif_neg (by omega)]
      simp [show oracle500 2 = APIOutcome.httpStatus 500 from rfl, h3]
    rw [attemptLoop, dif_neg (by omega)]
    simp [show oracle500 1 = APIOutcome.httpStatus 500 from rfl, h2]
  · intro maxR reqM oracle
    rw [callClaudeAPI]
    split
    · simp
    · exact attemptLoop_calls_le_aux oracle 2 1 (by omega)
  · intro oracle attempt c hor hc200 hc429 hc500
    have hnre : ¬(c = 429 ∨ 500 ≤ c) := by omega
    by_cases hge : 3 ≤ attempt
    · rw [attemptLoop, dif_pos hge]
      simp only [hor]
      rw [if_neg hc200]
    · rw [attemptLoop, dif_neg hge]
      simp only [hor]
      rw [if_neg hc200, if_neg hnre]
  · intro oracle attempt
    exact attemptLoop_backoffs oracle 3 attempt (by omega)

/-- Claim C8 witness: an HTTP 404 fails immediately — one call, no backoff. -/
theorem retry_backoff_contract_witness :
    attemptLoop oracle404 1 = ⟨Except.error (APIError.httpFail 404), 1, []⟩ :=
  retry_backoff_contract.2.2.1 oracle404 1 404 rfl (by omega) (by omega) (by omega)

end FinanceManager
